import Mathlib

/-!
Shallow embedding of `src/main.py` of the feedzai_challenge repository.

The program loads two CSV tables (`work_hours`, `time_off`) into SQLite,
runs two fixed SELECT queries and exports the results as CSV.

Modelling choices:
* Calendar dates (ISO `YYYY-MM-DD` strings in SQLite, compared
  lexicographically) are represented by their day number since 1970-01-01;
  this representation is order-isomorphic to the string representation for
  valid ISO dates.  1970-01-01 was a Thursday, so SQLite's
  `strftime('%w', d)` (0 = Sunday .. 6 = Saturday) is `(d + 4) % 7`.
* `strftime('%Y-%m', d)` is the civil (year, month) pair computed by the
  standard days-to-civil algorithm.
* SQL real arithmetic (`worked/1000.0`, `*100.0`, `/hours`) is modelled
  over `ℚ`.
* SQL window/group computations that do not fix an order among ties are
  modelled with a stable order (input order within equal keys), which is a
  deterministic refinement of SQLite's behaviour.
-/

/-- A row of the `work_hours` table
(`employee_id, employee_name, project_id, date, worked`). -/
structure WHRow where
  employee_id : Nat
  employee_name : String
  project_id : Nat
  date : Nat
  worked : Int
deriving DecidableEq

/-- A row of the `time_off` table
(`employee_id, employee_name, date_start, date_end`). -/
structure TORow where
  employee_id : Nat
  employee_name : String
  date_start : Nat
  date_end : Nat
deriving DecidableEq

/-- An output row of query 1 (`project_id, date, total_accumulated_cost`). -/
structure Q1Row where
  project_id : Nat
  date : Nat
  total_accumulated_cost : ℚ
deriving DecidableEq

/-- `strftime('%w', d) NOT IN ('0','6')`: day `d` is a Monday..Friday. -/
def isWorkingDay (d : Nat) : Bool :=
  ((d + 4) % 7 != 0) && ((d + 4) % 7 != 6)

/-- `strftime('%Y-%m', d)` as a (year, month) pair: the standard
days-from-civil inverse (Gregorian calendar), for day number `d`
since 1970-01-01. -/
def workMonth (d : Nat) : Nat × Nat :=
  let z := d + 719468
  let era := z / 146097
  let doe := z % 146097
  let yoe := (doe - doe / 1460 + doe / 36524 - doe / 146096) / 365
  let doy := doe - (365 * yoe + yoe / 4 - yoe / 100)
  let mp := (5 * doy + 2) / 153
  let m := if mp < 10 then mp + 3 else mp - 9
  let y := yoe + era * 400
  (if m ≤ 2 then y + 1 else y, m)

/-! ## Query 1 (actual accumulated cost)

```sql
SELECT project_id, date,
  SUM((worked/1000.0)*100.0) OVER (PARTITION BY project_id ORDER BY date
    ROWS BETWEEN UNBOUNDED PRECEDING AND CURRENT ROW) AS total_accumulated_cost
FROM work_hours;
```

One output row per `work_hours` row; within a partition the rows are
ordered by `date` (ties kept in input order) and the per-row contribution
`(worked/1000.0)*100.0` is accumulated with a `ROWS` frame, i.e. row by
row, not per distinct date. -/

/-- The window expression's per-row term `(worked/1000.0)*100.0`. -/
def costOfRow (r : WHRow) : ℚ :=
  (r.worked : ℚ) / 1000 * 100

/-- Insert a row into a date-sorted list, after all rows of ≤ date
(so that repeated insertion in input order is a stable sort). -/
def insertByDate (r : WHRow) : List WHRow → List WHRow
  | [] => [r]
  | s :: ss => if s.date ≤ r.date then s :: insertByDate r ss else r :: s :: ss

/-- Stable sort of work-hours rows by date (the `ORDER BY date` of the
window specification; ties keep input order). -/
def sortByDate (l : List WHRow) : List WHRow :=
  l.foldl (fun acc r => insertByDate r acc) []

/-- Running accumulation of the `ROWS BETWEEN UNBOUNDED PRECEDING AND
CURRENT ROW` frame: each row emits the sum of all per-row terms up to and
including itself (plus the carried prefix `acc`). -/
def accumCosts (acc : ℚ) : List WHRow → List Q1Row
  | [] => []
  | r :: rs =>
    ⟨r.project_id, r.date, acc + costOfRow r⟩ :: accumCosts (acc + costOfRow r) rs

/-- The rows query 1 produces for one partition (one `project_id`). -/
def query1Partition (wh : List WHRow) (p : Nat) : List Q1Row :=
  accumCosts 0 (sortByDate (wh.filter (fun r => decide (r.project_id = p))))

/-- Query 1: all partitions, one per distinct `project_id` (in first
occurrence order). -/
def query_1 (wh : List WHRow) : List Q1Row :=
  ((wh.map (fun r => r.project_id)).dedup).flatMap (query1Partition wh)

/-! ## Query 2 (project utilization) -/

/-- The `max_min` CTE: all dates of `work_hours` together with all
`date_start` and `date_end` bounds of `time_off` (the `UNION`'s
deduplication is irrelevant to the min/max taken below). -/
def spanDates (wh : List WHRow) (to_ : List TORow) : List Nat :=
  wh.map (fun r => r.date) ++ to_.map (fun t => t.date_start)
    ++ to_.map (fun t => t.date_end)

/-- The `all_working_days` CTE: every calendar day from the minimum to the
maximum of `spanDates` (inclusive), restricted to Monday..Friday; empty
when both tables are empty (the recursive seed is NULL then). -/
def allWorkingDays (wh : List WHRow) (to_ : List TORow) : List Nat :=
  match spanDates wh to_ with
  | [] => []
  | d :: ds =>
    let lo := ds.foldl min d
    let hi := ds.foldl max d
    (List.range' lo (hi + 1 - lo)).filter isWorkingDay

/-- `time_off CROSS JOIN all_working_days`. -/
def crossPairs (to_ : List TORow) (days : List Nat) : List (TORow × Nat) :=
  to_.flatMap (fun t => days.map (fun d => (t, d)))

/-- The `WHERE d.Date < t.date_start OR d.Date > t.date_end` predicate. -/
def outsideB (t : TORow) (d : Nat) : Bool :=
  decide (d < t.date_start) || decide (t.date_end < d)

/-- The filtered cross join feeding the grouping of
`available_work_hours_per_user`. -/
def qualifyingPairs (wh : List WHRow) (to_ : List TORow) : List (TORow × Nat) :=
  (crossPairs to_ (allWorkingDays wh to_)).filter (fun p => outsideB p.1 p.2)

/-- The `GROUP BY employee_id, employee_name, work_month` key of a
qualifying pair. -/
def ahKey (p : TORow × Nat) : Nat × String × (Nat × Nat) :=
  (p.1.employee_id, p.1.employee_name, workMonth p.2)

/-- A row of the `available_work_hours_per_user` CTE. -/
structure AHRow where
  employee_id : Nat
  employee_name : String
  work_month : Nat × Nat
  hours : Nat
deriving DecidableEq

/-- The `available_work_hours_per_user` CTE: one row per distinct group
key among the qualifying pairs, with `hours = count(*) * 8`. -/
def availableRows (wh : List WHRow) (to_ : List TORow) : List AHRow :=
  (((qualifyingPairs wh to_).map ahKey).dedup).map
    (fun k => ⟨k.1, k.2.1, k.2.2,
      ((qualifyingPairs wh to_).filter (fun p => decide (ahKey p = k))).length * 8⟩)

/-- A row of the `worked_hours_by_month_by_project_by_employee` CTE. -/
structure WGRow where
  employee_id : Nat
  work_month : Nat × Nat
  project_id : Nat
  worked_total : ℚ
deriving DecidableEq

/-- The `GROUP BY employee_id, work_month, project_id` key of a
`work_hours` row. -/
def whKey (r : WHRow) : Nat × (Nat × Nat) × Nat :=
  (r.employee_id, workMonth r.date, r.project_id)

/-- The `worked_hours_by_month_by_project_by_employee` CTE:
`sum(worked)/1000.0` per group. -/
def workedGroups (wh : List WHRow) : List WGRow :=
  ((wh.map whKey).dedup).map
    (fun k => ⟨k.1, k.2.1, k.2.2,
      (((wh.filter (fun r => decide (whKey r = k))).map
        (fun r => (r.worked : ℚ))).sum) / 1000⟩)

/-- The inner `JOIN ... ON ah.employee_id = wh.employee_id AND
ah.work_month = wh.work_month` as a list of matched pairs. -/
def joinedPairs (wh : List WHRow) (to_ : List TORow) : List (WGRow × AHRow) :=
  (workedGroups wh).flatMap (fun w =>
    ((availableRows wh to_).filter
      (fun a => decide (a.employee_id = w.employee_id ∧ a.work_month = w.work_month))).map
      (fun a => (w, a)))

/-- An output row of query 2. -/
structure UtilRow where
  employee_name : String
  work_month : Nat × Nat
  project_id : Nat
  project_utilization_percent : ℚ
deriving DecidableEq

/-- Query 2: the final projection
`100.0*wh.worked_total/ah.hours AS project_utilization_percent`. -/
def query_2 (wh : List WHRow) (to_ : List TORow) : List UtilRow :=
  (joinedPairs wh to_).map (fun p =>
    ⟨p.2.employee_name, p.2.work_month, p.1.project_id,
      100 * p.1.worked_total / (p.2.hours : ℚ)⟩)

/-! ## Database, filesystem and run models

`FeedzaiChallenge` holds an SQLite connection; `load_data` writes a
DataFrame into a table with `if_exists='replace'`; `query_data` runs
`pd.read_sql_query` (a pure read for the two SELECT statements used) and
`result.to_csv(output_path, index=False)`.  `to_csv` writes a header line
followed by the data rows (no index column) and raises when the parent
directory of the output path does not exist; it never creates
directories. -/

/-- The database state: the two tables the program uses (`none` = table
absent). -/
structure DB where
  work_hours : Option (List WHRow)
  time_off : Option (List TORow)
deriving DecidableEq

/-- `load_data('work_hours')`: `to_sql(..., if_exists='replace')` replaces
the table wholesale. -/
def load_work_hours (db : DB) (rows : List WHRow) : DB :=
  { db with work_hours := some rows }

/-- `load_data('time_off')`: `to_sql(..., if_exists='replace')`. -/
def load_time_off (db : DB) (rows : List TORow) : DB :=
  { db with time_off := some rows }

/-- Decimal rendering of a rational CSV cell (a deterministic, injective
stand-in for pandas' float formatting). -/
def ratCell (q : ℚ) : String :=
  toString q.num ++ "/" ++ toString q.den

/-- Rendering of a `YYYY-MM` month cell. -/
def monthCell (m : Nat × Nat) : String :=
  toString m.1 ++ "-" ++ toString m.2

/-- Query 1's projection order. -/
def q1Header : List String :=
  ["project_id", "date", "total_accumulated_cost"]

/-- The CSV document `to_csv` writes for a query-1 result: header row
first, then one record per result row, columns in projection order, no
index column. -/
def q1Doc (rows : List Q1Row) : List (List String) :=
  q1Header :: rows.map (fun r =>
    [toString r.project_id, toString r.date, ratCell r.total_accumulated_cost])

/-- Query 2's projection order. -/
def q2Header : List String :=
  ["employee_name", "work_month", "project_id", "project_utilization_percent"]

/-- The CSV document `to_csv` writes for a query-2 result. -/
def q2Doc (rows : List UtilRow) : List (List String) :=
  q2Header :: rows.map (fun r =>
    [r.employee_name, monthCell r.work_month, toString r.project_id,
      ratCell r.project_utilization_percent])

/-- Serialize a CSV document to its file text. -/
def renderDoc (doc : List (List String)) : String :=
  String.intercalate "\x0a" (doc.map (String.intercalate ","))

/-- Filesystem state: the set of existing directories and the files with
their (parsed) CSV contents.  Paths are segment lists; the parent of a
single-segment path is the current directory, which always exists. -/
structure FS where
  dirs : List (List String)
  files : List (List String × List (List String))
deriving DecidableEq

/-- `DataFrame.to_csv(path, index=False)`: writes (or overwrites) the file
when the parent directory exists, and raises otherwise.  It does not
create directories. -/
def writeCsv (fs : FS) (path : List String) (doc : List (List String)) :
    Except String FS :=
  if path.dropLast = [] ∨ path.dropLast ∈ fs.dirs then
    .ok { fs with
      files := (path, doc) :: fs.files.filter (fun f => decide (f.1 ≠ path)) }
  else
    .error "missing parent directory"

/-- Query 1 as executed against the database. -/
def runQuery1 (db : DB) : List Q1Row :=
  query_1 (db.work_hours.getD [])

/-- Query 2 as executed against the database. -/
def runQuery2 (db : DB) : List UtilRow :=
  query_2 (db.work_hours.getD []) (db.time_off.getD [])

/-- `query_data(query, output_path)`: evaluate the (read-only) query
against the database, then export the result with `to_csv`.  On success
the database is returned alongside the filesystem; any write failure
propagates as an error. -/
def query_data (db : DB) (fs : FS) (q : DB → List (List String))
    (path : List String) : Except String (DB × FS) :=
  match writeCsv fs path (q db) with
  | .ok fs2 => .ok (db, fs2)
  | .error e => .error e

/-- The full run on given input CSV contents: load both tables (replacing
whatever a previous run left), run both queries and render both output
files.  Returns the final database state and the two output file texts. -/
def runPipeline (db : DB) (whCsv : List WHRow) (toCsv : List TORow) :
    DB × (String × String) :=
  let db2 := load_time_off (load_work_hours db whCsv) toCsv
  (db2, (renderDoc (q1Doc (runQuery1 db2)), renderDoc (q2Doc (runQuery2 db2))))

/-- Success/failure of each fallible stage of `__main__`
(`read_csv_files`, the two `load_data` calls, the two `query_data`
calls). -/
structure StageOutcome where
  read_ok : Bool
  load_wh_ok : Bool
  load_to_ok : Bool
  q1_ok : Bool
  q2_ok : Bool
deriving DecidableEq

/-- What a run did: whether `close_connection` was reached and whether an
exception propagated out. -/
structure RunResult where
  connection_closed : Bool
  raised : Bool
deriving DecidableEq

/-- Control flow of the `__main__` block: the stages run in sequence, each
failure re-raises immediately (there is no `try`/`finally`), and
`close_connection` is the last statement, reached only when every prior
stage succeeded. -/
def mainRun (s : StageOutcome) : RunResult :=
  if s.read_ok = false then ⟨false, true⟩
  else if s.load_wh_ok = false then ⟨false, true⟩
  else if s.load_to_ok = false then ⟨false, true⟩
  else if s.q1_ok = false then ⟨false, true⟩
  else if s.q2_ok = false then ⟨false, true⟩
  else ⟨true, false⟩

/-- Modelled from the spec: the claim's description of available hours,
"the number of weekdays in the calendar span falling in that month that
are not covered by any of that employee's time-off intervals, multiplied
by 8" (a day is covered when `date_start <= day <= date_end`). -/
def specAvailableHours (wh : List WHRow) (to_ : List TORow) (e : Nat)
    (m : Nat × Nat) : Nat :=
  8 * ((allWorkingDays wh to_).filter (fun d =>
    decide (workMonth d = m) &&
    (to_.filter (fun t => decide (t.employee_id = e))).all
      (fun t => !(decide (t.date_start ≤ d) && decide (d ≤ t.date_end))))).length

/-! ## Lemmas about query 1 -/

theorem accumCosts_length (acc : ℚ) (l : List WHRow) :
    (accumCosts acc l).length = l.length := by
  induction l generalizing acc with
  | nil => rfl
  | cons r rs ih => simp [accumCosts, ih]

theorem insertByDate_perm (r : WHRow) (l : List WHRow) :
    List.Perm (insertByDate r l) (r :: l) := by
  induction l with
  | nil => exact List.Perm.refl _
  | cons s ss ih =>
    by_cases h : s.date ≤ r.date
    · simp only [insertByDate, if_pos h]
      exact (ih.cons s).trans (List.Perm.swap r s ss)
    · simp only [insertByDate, if_neg h]
      exact List.Perm.refl _

theorem foldl_insert_perm (l acc : List WHRow) :
    List.Perm (l.foldl (fun a r => insertByDate r a) acc) (acc ++ l) := by
  induction l generalizing acc with
  | nil => simp
  | cons r rs ih =>
    refine List.Perm.trans (ih (insertByDate r acc)) ?_
    refine List.Perm.trans ((insertByDate_perm r acc).append_right rs) ?_
    simpa using List.perm_middle.symm

theorem sortByDate_perm (l : List WHRow) : List.Perm (sortByDate l) l := by
  simpa using foldl_insert_perm l []

theorem insertByDate_ne_nil (r : WHRow) (l : List WHRow) :
    insertByDate r l ≠ [] := by
  cases l with
  | nil => simp [insertByDate]
  | cons s ss => simp only [insertByDate]; split <;> simp

theorem mem_insertByDate_self (r : WHRow) (l : List WHRow) :
    r ∈ insertByDate r l :=
  (insertByDate_perm r l).mem_iff.mpr (List.mem_cons_self r l)

theorem getLast?_cons_of_ne_nil {α : Type} (a : α) {l : List α} (h : l ≠ []) :
    (a :: l).getLast? = l.getLast? := by
  cases l with
  | nil => exact absurd rfl h
  | cons y t => rw [List.getLast?_cons_cons]

/-- The last element of a list bounds every element's date. -/
def LastMaxD (l : List WHRow) : Prop :=
  ∀ lst, l.getLast? = some lst → ∀ x ∈ l, x.date ≤ lst.date

theorem insertByDate_lastMax (r : WHRow) (l : List WHRow) (h : LastMaxD l) :
    LastMaxD (insertByDate r l) := by
  induction l with
  | nil =>
    intro lst hlst x hx
    simp only [insertByDate] at hlst hx
    simp only [List.getLast?_singleton, Option.some.injEq] at hlst
    simp only [List.mem_singleton] at hx
    subst hlst; subst hx; exact le_refl _
  | cons s ss ih =>
    have hss : LastMaxD ss := by
      intro lst hlst x hx
      cases ss with
      | nil => simp at hlst
      | cons y t =>
        exact h lst (by rw [List.getLast?_cons_cons]; exact hlst) x
          (List.mem_cons_of_mem s hx)
    by_cases hsr : s.date ≤ r.date
    · intro lst hlst x hx
      simp only [insertByDate, if_pos hsr] at hlst hx
      rw [getLast?_cons_of_ne_nil s (insertByDate_ne_nil r ss)] at hlst
      have hmax := ih hss lst hlst
      rcases List.mem_cons.mp hx with rfl | hx2
      · exact le_trans hsr (hmax r (mem_insertByDate_self r ss))
      · exact hmax x hx2
    · intro lst hlst x hx
      simp only [insertByDate, if_neg hsr] at hlst hx
      rw [List.getLast?_cons_cons] at hlst
      have hmax := h lst hlst
      rcases List.mem_cons.mp hx with rfl | hx2
      · exact le_trans (le_of_lt (not_le.mp hsr))
          (hmax s (List.mem_cons_self s ss))
      · exact hmax x hx2

theorem sortByDate_lastMax (l : List WHRow) : LastMaxD (sortByDate l) := by
  suffices h : ∀ (l2 acc : List WHRow), LastMaxD acc →
      LastMaxD (l2.foldl (fun a r => insertByDate r a) acc) by
    refine h l [] ?_
    intro lst hlst
    simp at hlst
  intro l2
  induction l2 with
  | nil => intro acc h; simpa using h
  | cons r rs ih => intro acc h; exact ih _ (insertByDate_lastMax r acc h)

theorem accumCosts_getLast (acc : ℚ) (l : List WHRow) (r0 : WHRow)
    (h : l.getLast? = some r0) :
    (accumCosts acc l).getLast? =
      some ⟨r0.project_id, r0.date, acc + (l.map costOfRow).sum⟩ := by
  induction l generalizing acc with
  | nil => simp at h
  | cons r rs ih =>
    cases rs with
    | nil =>
      simp only [List.getLast?_singleton, Option.some.injEq] at h
      subst h
      simp [accumCosts]
    | cons y t =>
      rw [List.getLast?_cons_cons] at h
      have hmain := ih (acc + costOfRow r) h
      simp only [accumCosts] at hmain ⊢
      rw [List.getLast?_cons_cons, hmain]
      have hx : acc + costOfRow r + (List.map costOfRow (y :: t)).sum
          = acc + (List.map costOfRow (r :: y :: t)).sum := by
        simp only [List.map_cons, List.sum_cons]
        ring
      rw [hx]

/-! ## Counting and partitioning lemmas -/

theorem sum_map_add_nat {κ : Type} (keys : List κ) (g h : κ → Nat) :
    (keys.map (fun k => g k + h k)).sum = (keys.map g).sum + (keys.map h).sum := by
  induction keys with
  | nil => rfl
  | cons a t ih =>
    simp only [List.map_cons, List.sum_cons, ih]
    omega

theorem sum_map_ite_one {κ : Type} [DecidableEq κ] (keys : List κ) (k0 : κ)
    (hnd : keys.Nodup) (hm : k0 ∈ keys) :
    (keys.map (fun k => if k0 = k then 1 else 0)).sum = 1 := by
  induction keys with
  | nil => simp at hm
  | cons a t ih =>
    rcases List.mem_cons.mp hm with rfl | hmt
    · simp only [List.map_cons, List.sum_cons, if_pos rfl]
      have hz : (t.map (fun k => if k0 = k then (1 : Nat) else 0)).sum = 0 := by
        refine List.sum_eq_zero ?_
        intro x hx
        rcases List.mem_map.mp hx with ⟨k, hk, rfl⟩
        have hne : k0 ≠ k := fun he => (List.nodup_cons.mp hnd).1 (he ▸ hk)
        simp [hne]
      simp [hz]
    · have hne : k0 ≠ a := fun he =>
        (List.nodup_cons.mp hnd).1 (he ▸ hmt)
      simp only [List.map_cons, List.sum_cons, if_neg hne]
      rw [ih (List.nodup_cons.mp hnd).2 hmt]

theorem fiber_lengths {α κ : Type} [DecidableEq κ] (keys : List κ) (f : α → κ)
    (l : List α) (hnd : keys.Nodup) (hcov : ∀ x ∈ l, f x ∈ keys) :
    (keys.map (fun k => (l.filter (fun x => decide (f x = k))).length)).sum
      = l.length := by
  induction l with
  | nil => simp
  | cons x t ih =>
    have hcov2 : ∀ y ∈ t, f y ∈ keys := fun y hy =>
      hcov y (List.mem_cons_of_mem x hy)
    have hstep : ∀ k ∈ keys,
        ((x :: t).filter (fun z => decide (f z = k))).length
          = (if f x = k then 1 else 0)
            + (t.filter (fun z => decide (f z = k))).length := by
      intro k _
      by_cases hfx : f x = k
      · simp [List.filter_cons, hfx, Nat.add_comm]
      · simp [List.filter_cons, hfx]
    rw [List.map_congr_left hstep, sum_map_add_nat,
      sum_map_ite_one keys (f x) hnd (hcov x (List.mem_cons_self x t)),
      ih hcov2]
    simp [Nat.add_comm]

theorem flatMap_single {κ β : Type} [DecidableEq κ] (keys : List κ)
    (g : κ → List β) (k0 : κ) (hnd : keys.Nodup) (hm : k0 ∈ keys)
    (hz : ∀ k ∈ keys, k ≠ k0 → g k = []) :
    keys.flatMap g = g k0 := by
  induction keys with
  | nil => simp at hm
  | cons a t ih =>
    rcases List.mem_cons.mp hm with rfl | hmt
    · rw [List.flatMap_cons]
      have hnil : t.flatMap g = [] := by
        refine List.flatMap_eq_nil_iff.mpr ?_
        intro k hk
        exact hz k (List.mem_cons_of_mem _ hk)
          (fun he => (List.nodup_cons.mp hnd).1 (he ▸ hk))
      rw [hnil, List.append_nil]
    · rw [List.flatMap_cons,
        hz a (List.mem_cons_self a t)
          (fun he => (List.nodup_cons.mp hnd).1 (he ▸ hmt)),
        List.nil_append]
      exact ih (List.nodup_cons.mp hnd).2 hmt
        (fun k hk hkne => hz k (List.mem_cons_of_mem a hk) hkne)

theorem accumCosts_project (acc : ℚ) (l : List WHRow) (p : Nat)
    (h : ∀ r ∈ l, r.project_id = p) :
    ∀ q ∈ accumCosts acc l, q.project_id = p := by
  induction l generalizing acc with
  | nil => simp [accumCosts]
  | cons r rs ih =>
    intro q hq
    simp only [accumCosts, List.mem_cons] at hq
    rcases hq with rfl | hq2
    · exact h r (List.mem_cons_self r rs)
    · exact ih _ (fun r2 h2 => h r2 (List.mem_cons_of_mem r h2)) q hq2

theorem query1Partition_project (wh : List WHRow) (k : Nat) :
    ∀ q ∈ query1Partition wh k, q.project_id = k := by
  intro q hq
  refine accumCosts_project 0 _ k ?_ q hq
  intro r hr
  have hr2 : r ∈ wh.filter (fun r2 => decide (r2.project_id = k)) :=
    ((sortByDate_perm _).mem_iff).mp hr
  exact of_decide_eq_true (List.mem_filter.mp hr2).2

theorem query_1_filter_eq (wh : List WHRow) (p : Nat) :
    (query_1 wh).filter (fun q => decide (q.project_id = p))
      = query1Partition wh p := by
  unfold query_1
  rw [List.filter_flatMap]
  have hcase : ∀ k,
      (query1Partition wh k).filter (fun q => decide (q.project_id = p))
        = if k = p then query1Partition wh p else [] := by
    intro k
    by_cases hk : k = p
    · subst hk
      rw [if_pos rfl]
      refine List.filter_eq_self.mpr ?_
      intro q hq
      exact decide_eq_true (query1Partition_project wh k q hq)
    · rw [if_neg hk]
      refine List.filter_eq_nil_iff.mpr ?_
      intro q hq hqp
      exact hk (by
        rw [← query1Partition_project wh k q hq]
        exact of_decide_eq_true hqp)
  by_cases hp : p ∈ (wh.map (fun r => r.project_id)).dedup
  · rw [flatMap_single _ _ p (List.nodup_dedup _) hp
      (fun k _ hkp => by rw [hcase k, if_neg hkp])]
    rw [hcase p, if_pos rfl]
  · have h1 : ((wh.map (fun r => r.project_id)).dedup).flatMap
        (fun k => (query1Partition wh k).filter
          (fun q => decide (q.project_id = p))) = [] := by
      refine List.flatMap_eq_nil_iff.mpr ?_
      intro k hk
      rw [hcase k, if_neg (fun he : k = p => hp (he ▸ hk))]
    rw [h1]
    have h2 : wh.filter (fun r => decide (r.project_id = p)) = [] := by
      refine List.filter_eq_nil_iff.mpr ?_
      intro r hr hrp
      exact hp (List.mem_dedup.mpr (List.mem_map.mpr
        ⟨r, hr, of_decide_eq_true hrp⟩))
    unfold query1Partition
    rw [h2]
    rfl

theorem length_flatMap {α β : Type} (l : List α) (g : α → List β) :
    (l.flatMap g).length = (l.map (fun a => (g a).length)).sum := by
  induction l with
  | nil => rfl
  | cons a t ih => simp [List.flatMap_cons, ih]

theorem query1Partition_length (wh : List WHRow) (p : Nat) :
    (query1Partition wh p).length
      = (wh.filter (fun r => decide (r.project_id = p))).length := by
  unfold query1Partition
  rw [accumCosts_length, (sortByDate_perm _).length_eq]

theorem query_1_length (wh : List WHRow) : (query_1 wh).length = wh.length := by
  unfold query_1
  rw [length_flatMap, List.map_congr_left
    (fun k _ => query1Partition_length wh k)]
  exact fiber_lengths _ (fun r => r.project_id) wh (List.nodup_dedup _)
    (fun r hr => List.mem_dedup.mpr (List.mem_map.mpr ⟨r, hr, rfl⟩))

theorem sum_costs_eq (l : List WHRow) :
    (l.map costOfRow).sum = ((l.map (fun r => (r.worked : ℚ))).sum) / 1000 * 100 := by
  induction l with
  | nil => simp
  | cons r rs ih =>
    simp only [List.map_cons, List.sum_cons, ih, costOfRow]
    ring

theorem nonneg_cost (r : WHRow) (h : 0 ≤ r.worked) : 0 ≤ costOfRow r := by
  unfold costOfRow
  have h2 : (0 : ℚ) ≤ (r.worked : ℚ) := by exact_mod_cast h
  exact mul_nonneg (div_nonneg h2 (by norm_num)) (by norm_num)

theorem accumCosts_chain (l : List WHRow) : ∀ acc : ℚ,
    (∀ r ∈ l, 0 ≤ costOfRow r) →
    List.Chain (fun a b => a ≤ b) acc
      ((accumCosts acc l).map (fun q => q.total_accumulated_cost)) := by
  induction l with
  | nil => intro acc h; exact List.Chain.nil
  | cons r rs ih =>
    intro acc h
    simp only [accumCosts, List.map_cons]
    refine List.Chain.cons ?_
      (ih (acc + costOfRow r) (fun r2 h2 => h r2 (List.mem_cons_of_mem r h2)))
    have h3 := h r (List.mem_cons_self r rs)
    linarith

theorem chain'_of_chain {α : Type} {R : α → α → Prop} (a : α) (l : List α)
    (h : List.Chain R a l) : List.Chain' R l := by
  cases l with
  | nil => trivial
  | cons b t => exact (List.chain_cons.mp h).2

/-- Concrete input: two work records of the same project on the same day. -/
def whDup : List WHRow := [⟨1, "A", 1, 0, 1000⟩, ⟨1, "A", 1, 0, 1000⟩]

/-- Concrete input: two work records of one project on two days. -/
def whTwo : List WHRow := [⟨1, "A", 1, 0, 1000⟩, ⟨1, "A", 1, 1, 2000⟩]

/-- C2 counterexample: on an input with two `work_hours` rows for the same
`(project_id, date)` pair, query 1 outputs two rows (one per input row,
with `ROWS`-frame partial sums 100 and 200), not one row per distinct
pair carrying a single total. -/
theorem C2_counterexample :
    (query_1 whDup).length = 2 ∧
    ((whDup.map (fun r => (r.project_id, r.date))).dedup).length = 1 ∧
    (query_1 whDup).map (fun q => q.total_accumulated_cost) = [100, 200] ∧
    (100 : ℚ) ≠ 200 := by
  refine ⟨rfl, rfl, ?_, by norm_num⟩
  norm_num [query_1, query1Partition, sortByDate, insertByDate, accumCosts,
    costOfRow, whDup]

/-- C2 (amended): query 1 has no `GROUP BY`, so it outputs exactly one row
per `work_hours` row; rows sharing a `(project_id, date)` pair each get
their own output row (with successive `ROWS`-frame partial sums), rather
than one shared row per distinct pair. -/
theorem C2_amended_one_row_per_work_hours_row (wh : List WHRow) :
    (query_1 wh).length = wh.length :=
  query_1_length wh

/-- C4: the last output row of each project's partition of query 1 falls
on the project's maximum date and carries a `total_accumulated_cost`
equal to `100 * (sum of worked over all of that project's rows) / 1000`. -/
theorem C4_query_1_last_row_total (wh : List WHRow) (p : Nat)
    (h : p ∈ wh.map (fun r => r.project_id)) :
    ∃ q, ((query_1 wh).filter
        (fun q2 => decide (q2.project_id = p))).getLast? = some q ∧
      q.project_id = p ∧
      (∃ r ∈ wh, r.project_id = p ∧ r.date = q.date) ∧
      (∀ r ∈ wh, r.project_id = p → r.date ≤ q.date) ∧
      q.total_accumulated_cost
        = 100 * ((wh.filter (fun r => decide (r.project_id = p))).map
            (fun r => (r.worked : ℚ))).sum / 1000 := by
  rw [query_1_filter_eq]
  obtain ⟨r1, hr1, hr1p⟩ := List.mem_map.mp h
  have hne : wh.filter (fun r => decide (r.project_id = p)) ≠ [] := by
    intro hnil
    have hmem : r1 ∈ wh.filter (fun r => decide (r.project_id = p)) :=
      List.mem_filter.mpr ⟨hr1, decide_eq_true hr1p⟩
    rw [hnil] at hmem
    simp at hmem
  have hsne : sortByDate (wh.filter (fun r => decide (r.project_id = p))) ≠ [] := by
    intro hnil
    have hlen := (sortByDate_perm
      (wh.filter (fun r => decide (r.project_id = p)))).length_eq
    rw [hnil] at hlen
    exact hne (List.length_eq_zero.mp hlen.symm)
  obtain ⟨r0, hr0⟩ : ∃ r0, (sortByDate (wh.filter
      (fun r => decide (r.project_id = p)))).getLast? = some r0 := by
    cases hlast : (sortByDate (wh.filter
        (fun r => decide (r.project_id = p)))).getLast? with
    | none => exact absurd (List.getLast?_eq_none_iff.mp hlast) hsne
    | some r2 => exact ⟨r2, rfl⟩
  have hr0mem : r0 ∈ wh.filter (fun r => decide (r.project_id = p)) := by
    obtain ⟨ys, hys⟩ := List.getLast?_eq_some_iff.mp hr0
    have : r0 ∈ sortByDate (wh.filter (fun r => decide (r.project_id = p))) := by
      rw [hys]
      exact List.mem_append_right ys (List.mem_singleton.mpr rfl)
    exact ((sortByDate_perm _).mem_iff).mp this
  have hr0p : r0.project_id = p := of_decide_eq_true (List.mem_filter.mp hr0mem).2
  refine ⟨⟨r0.project_id, r0.date, 0 + ((sortByDate (wh.filter
      (fun r => decide (r.project_id = p)))).map costOfRow).sum⟩,
    ?_, ?_, ?_, ?_, ?_⟩
  · exact accumCosts_getLast 0 _ r0 hr0
  · exact hr0p
  · exact ⟨r0, (List.mem_filter.mp hr0mem).1, hr0p, rfl⟩
  · intro r hr hrp
    have hmem : r ∈ sortByDate (wh.filter (fun r2 => decide (r2.project_id = p))) :=
      ((sortByDate_perm _).mem_iff).mpr
        (List.mem_filter.mpr ⟨hr, decide_eq_true hrp⟩)
    exact sortByDate_lastMax _ r0 hr0 r hmem
  · show (0 : ℚ) + ((sortByDate (wh.filter
        (fun r => decide (r.project_id = p)))).map costOfRow).sum = _
    rw [zero_add, ((sortByDate_perm _).map costOfRow).sum_eq, sum_costs_eq]
    ring

/-- C4 witness: the theorem applied to a concrete two-row input. -/
theorem C4_witness :
    (1 ∈ whTwo.map (fun r => r.project_id)) ∧
    (∃ q, ((query_1 whTwo).filter
        (fun q2 => decide (q2.project_id = 1))).getLast? = some q ∧
      q.project_id = 1 ∧
      (∃ r ∈ whTwo, r.project_id = 1 ∧ r.date = q.date) ∧
      (∀ r ∈ whTwo, r.project_id = 1 → r.date ≤ q.date) ∧
      q.total_accumulated_cost
        = 100 * ((whTwo.filter (fun r => decide (r.project_id = 1))).map
            (fun r => (r.worked : ℚ))).sum / 1000) :=
  ⟨by decide, C4_query_1_last_row_total whTwo 1 (by decide)⟩

/-- C5: within each project, in the accumulation order of the query, the
`total_accumulated_cost` sequence is non-decreasing when every `worked`
value is non-negative. -/
theorem C5_costs_nondecreasing (wh : List WHRow) (p : Nat)
    (h : ∀ r ∈ wh, 0 ≤ r.worked) :
    List.Chain' (fun a b => a ≤ b)
      (((query_1 wh).filter (fun q => decide (q.project_id = p))).map
        (fun q => q.total_accumulated_cost)) := by
  rw [query_1_filter_eq]
  unfold query1Partition
  refine chain'_of_chain 0 _ (accumCosts_chain _ 0 ?_)
  intro r hr
  have hr2 : r ∈ wh :=
    (List.mem_filter.mp (((sortByDate_perm _).mem_iff).mp hr)).1
  exact nonneg_cost r (h r hr2)

/-- C5 witness: the theorem applied to a concrete two-row input. -/
theorem C5_witness :
    (∀ r ∈ whTwo, 0 ≤ r.worked) ∧
    List.Chain' (fun a b => a ≤ b)
      (((query_1 whTwo).filter (fun q => decide (q.project_id = 1))).map
        (fun q => q.total_accumulated_cost)) :=
  ⟨by decide, C5_costs_nondecreasing whTwo 1 (by decide)⟩

/-! ## Lemmas about query 2 -/

theorem sum_map_eq_sum_filter {τ : Type} (l : List τ) (p : τ → Bool)
    (f : τ → Nat) (h : ∀ t ∈ l, p t = false → f t = 0) :
    (l.map f).sum = ((l.filter p).map f).sum := by
  induction l with
  | nil => rfl
  | cons a t ih =>
    have ih2 := ih (fun x hx hpx => h x (List.mem_cons_of_mem a hx) hpx)
    cases hpa : p a with
    | true => simp [List.filter_cons, hpa, ih2]
    | false =>
      have hfa : f a = 0 := h a (List.mem_cons_self a t) hpa
      simp [List.filter_cons, hpa, hfa, ih2]

theorem qualifying_filter_length (wh : List WHRow) (to_ : List TORow)
    (k : Nat × String × (Nat × Nat)) :
    ((qualifyingPairs wh to_).filter (fun p => decide (ahKey p = k))).length
      = (to_.map (fun t => ((allWorkingDays wh to_).filter
          (fun d => outsideB t d && decide (ahKey (t, d) = k))).length)).sum := by
  unfold qualifyingPairs crossPairs
  rw [List.filter_filter, List.filter_flatMap, length_flatMap]
  refine congrArg List.sum (List.map_congr_left ?_)
  intro t ht
  rw [List.filter_map]
  simp only [List.length_map]
  refine congrArg List.length (List.filter_congr ?_)
  intro d hd
  simp [Function.comp, Bool.and_comm]

theorem availableRows_hours_decomposed (wh : List WHRow) (to_ : List TORow) :
    ∀ a ∈ availableRows wh to_,
      a.hours = 8 * ((to_.filter (fun t =>
          decide (t.employee_id = a.employee_id) &&
          decide (t.employee_name = a.employee_name))).map
        (fun t => ((allWorkingDays wh to_).filter
          (fun d => outsideB t d && decide (workMonth d = a.work_month))).length)).sum := by
  intro a ha
  obtain ⟨k, hk, rfl⟩ := List.mem_map.mp ha
  show ((qualifyingPairs wh to_).filter (fun p => decide (ahKey p = k))).length * 8
    = 8 * ((to_.filter (fun t =>
        decide (t.employee_id = k.1) && decide (t.employee_name = k.2.1))).map
      (fun t => ((allWorkingDays wh to_).filter
        (fun d => outsideB t d && decide (workMonth d = k.2.2))).length)).sum
  rw [qualifying_filter_length wh to_ k]
  have hmatch : ∀ t : TORow, (t.employee_id = k.1 ∧ t.employee_name = k.2.1) →
      ((allWorkingDays wh to_).filter
          (fun d => outsideB t d && decide (ahKey (t, d) = k))).length
        = ((allWorkingDays wh to_).filter
          (fun d => outsideB t d && decide (workMonth d = k.2.2))).length := by
    intro t hm
    refine congrArg List.length (List.filter_congr ?_)
    intro d hd
    have hiff : (ahKey (t, d) = k) ↔ (workMonth d = k.2.2) := by
      obtain ⟨k1, k2, k3⟩ := k
      simp [ahKey, Prod.ext_iff, hm.1, hm.2]
    rw [decide_eq_decide.mpr hiff]
  have hnomatch : ∀ t ∈ to_,
      (decide (t.employee_id = k.1) && decide (t.employee_name = k.2.1)) = false →
      ((allWorkingDays wh to_).filter
        (fun d => outsideB t d && decide (ahKey (t, d) = k))).length = 0 := by
    intro t ht hfalse
    have hnil : (allWorkingDays wh to_).filter
        (fun d => outsideB t d && decide (ahKey (t, d) = k)) = [] := by
      refine List.filter_eq_nil_iff.mpr ?_
      intro d hd hpd
      have hkey : ahKey (t, d) = k := by
        have := (Bool.and_eq_true _ _).mp hpd
        exact of_decide_eq_true this.2
      have h1 : t.employee_id = k.1 := by
        rw [← hkey]; rfl
      have h2 : t.employee_name = k.2.1 := by
        rw [← hkey]; rfl
      rw [decide_eq_true h1, decide_eq_true h2] at hfalse
      simp at hfalse
    rw [hnil]
    rfl
  rw [sum_map_eq_sum_filter to_
    (fun t => decide (t.employee_id = k.1) && decide (t.employee_name = k.2.1))
    _ hnomatch]
  rw [List.map_congr_left (fun t ht => hmatch t
    ⟨of_decide_eq_true ((Bool.and_eq_true _ _).mp
        ((List.mem_filter.mp ht).2)).1,
      of_decide_eq_true ((Bool.and_eq_true _ _).mp
        ((List.mem_filter.mp ht).2)).2⟩)]
  exact Nat.mul_comm _ 8

/-- Concrete input: one work record on day 0 (Thursday 1970-01-01). -/
def whC1 : List WHRow := [⟨1, "A", 1, 0, 1000⟩]

/-- Concrete input: employee 1 has two one-day time-off intervals covering
both working days (day 0 and day 1) of the span. -/
def toC1 : List TORow := [⟨1, "A", 0, 0⟩, ⟨1, "A", 1, 1⟩]

/-- C1 counterexample: employee 1 has time-off rows and every weekday of
the span is covered by one of their intervals, so the claim's value is
`0 × 8 = 0`; the CTE nevertheless produces `hours = 16`, because each day
is counted once per interval that does not cover it. -/
theorem C1_counterexample :
    1 ≤ (toC1.filter (fun t => decide (t.employee_id = 1))).length ∧
    availableRows whC1 toC1 = [⟨1, "A", (1970, 1), 16⟩] ∧
    specAvailableHours whC1 toC1 1 (1970, 1) = 0 ∧
    (16 : Nat) ≠ 0 :=
  ⟨by decide, rfl, rfl, by decide⟩

/-- C1 (amended): a row's `hours` equals 8 times the number of
(time-off row, weekday) pairs — each weekday of the row's month counted
once per time-off interval of that employee lying strictly outside it —
not 8 times the number of distinct weekdays outside all intervals. -/
theorem C1_amended_hours_with_multiplicity (wh : List WHRow)
    (to_ : List TORow) :
    ∀ a ∈ availableRows wh to_,
      a.hours = 8 * ((to_.filter (fun t =>
          decide (t.employee_id = a.employee_id) &&
          decide (t.employee_name = a.employee_name))).map
        (fun t => ((allWorkingDays wh to_).filter
          (fun d => outsideB t d && decide (workMonth d = a.work_month))).length)).sum :=
  availableRows_hours_decomposed wh to_

/-- C1 witness: the amended theorem applied to the concrete input. -/
theorem C1_amended_witness :
    (⟨1, "A", (1970, 1), 16⟩ : AHRow) ∈ availableRows whC1 toC1 ∧
    (⟨1, "A", (1970, 1), 16⟩ : AHRow).hours
      = 8 * ((toC1.filter (fun t =>
          decide (t.employee_id = (⟨1, "A", (1970, 1), 16⟩ : AHRow).employee_id) &&
          decide (t.employee_name
            = (⟨1, "A", (1970, 1), 16⟩ : AHRow).employee_name))).map
        (fun t => ((allWorkingDays whC1 toC1).filter
          (fun d => outsideB t d && decide (workMonth d
            = (⟨1, "A", (1970, 1), 16⟩ : AHRow).work_month))).length)).sum := by
  have hmem : (⟨1, "A", (1970, 1), 16⟩ : AHRow) ∈ availableRows whC1 toC1 := by
    rw [show availableRows whC1 toC1 = [⟨1, "A", (1970, 1), 16⟩] from rfl]
    exact List.mem_singleton.mpr rfl
  exact ⟨hmem, C1_amended_hours_with_multiplicity whC1 toC1 _ hmem⟩

/-- C3: an employee appearing in `work_hours` with no `time_off` row gets
no `available_work_hours_per_user` row, and hence (inner join) no row of
the utilization output stems from that employee. -/
theorem C3_no_time_off_no_utilization (wh : List WHRow) (to_ : List TORow)
    (e : Nat) (_hwh : e ∈ wh.map (fun r => r.employee_id))
    (hto : ∀ t ∈ to_, t.employee_id ≠ e) :
    (∀ a ∈ availableRows wh to_, a.employee_id ≠ e) ∧
    (∀ pr ∈ joinedPairs wh to_, pr.1.employee_id ≠ e ∧ pr.2.employee_id ≠ e) := by
  have hah : ∀ a ∈ availableRows wh to_, a.employee_id ≠ e := by
    intro a ha
    obtain ⟨k, hk, rfl⟩ := List.mem_map.mp ha
    have hk2 : k ∈ (qualifyingPairs wh to_).map ahKey := List.mem_dedup.mp hk
    obtain ⟨p0, hp0, hkey⟩ := List.mem_map.mp hk2
    have hp1 : p0.1 ∈ to_ := by
      have h3 := (List.mem_filter.mp hp0).1
      unfold crossPairs at h3
      obtain ⟨t, ht, hmem2⟩ := List.mem_flatMap.mp h3
      obtain ⟨d, hd, rfl⟩ := List.mem_map.mp hmem2
      exact ht
    show k.1 ≠ e
    rw [← hkey]
    exact hto p0.1 hp1
  refine ⟨hah, ?_⟩
  intro pr hpr
  unfold joinedPairs at hpr
  obtain ⟨w, hw, hmem2⟩ := List.mem_flatMap.mp hpr
  obtain ⟨a, hafil, rfl⟩ := List.mem_map.mp hmem2
  have hfa := List.mem_filter.mp hafil
  have heq : a.employee_id = w.employee_id := (of_decide_eq_true hfa.2).1
  have hane := hah a hfa.1
  exact ⟨fun hwe => hane (heq.trans hwe), hane⟩

/-- Concrete input: employee 2 logs work but only employee 1 has time
off. -/
def whC3 : List WHRow := [⟨2, "B", 1, 0, 1000⟩]

/-- Concrete input: the only time-off row belongs to employee 1. -/
def toC3 : List TORow := [⟨1, "A", 0, 0⟩]

/-- C3 witness: the theorem applied to the concrete input. -/
theorem C3_witness :
    (2 ∈ whC3.map (fun r => r.employee_id)) ∧
    ((∀ a ∈ availableRows whC3 toC3, a.employee_id ≠ 2) ∧
     (∀ pr ∈ joinedPairs whC3 toC3,
        pr.1.employee_id ≠ 2 ∧ pr.2.employee_id ≠ 2)) :=
  ⟨by decide, C3_no_time_off_no_utilization whC3 toC3 2 (by decide) (by decide)⟩

/-- C6: every `available_work_hours_per_user` group stems from at least
one qualifying pair, so `hours ≥ 8`; hence the divisor of the final
projection is never zero. -/
theorem C6_hours_at_least_eight (wh : List WHRow) (to_ : List TORow) :
    (∀ a ∈ availableRows wh to_, 8 ≤ a.hours) ∧
    (∀ pr ∈ joinedPairs wh to_, ((pr.2.hours : ℚ)) ≠ 0) := by
  have h8 : ∀ a ∈ availableRows wh to_, 8 ≤ a.hours := by
    intro a ha
    obtain ⟨k, hk, rfl⟩ := List.mem_map.mp ha
    have hk2 : k ∈ (qualifyingPairs wh to_).map ahKey := List.mem_dedup.mp hk
    obtain ⟨p0, hp0, hkey⟩ := List.mem_map.mp hk2
    have hmemf : p0 ∈ (qualifyingPairs wh to_).filter
        (fun p => decide (ahKey p = k)) :=
      List.mem_filter.mpr ⟨hp0, decide_eq_true hkey⟩
    have hlen : 1 ≤ ((qualifyingPairs wh to_).filter
        (fun p => decide (ahKey p = k))).length :=
      List.length_pos.mpr (List.ne_nil_of_mem hmemf)
    show 8 ≤ ((qualifyingPairs wh to_).filter
      (fun p => decide (ahKey p = k))).length * 8
    calc 8 = 1 * 8 := (Nat.one_mul 8).symm
      _ ≤ _ * 8 := Nat.mul_le_mul_right 8 hlen
  refine ⟨h8, ?_⟩
  intro pr hpr
  unfold joinedPairs at hpr
  obtain ⟨w, hw, hmem2⟩ := List.mem_flatMap.mp hpr
  obtain ⟨a, hafil, rfl⟩ := List.mem_map.mp hmem2
  have h8a := h8 a (List.mem_filter.mp hafil).1
  show ((a.hours : ℚ)) ≠ 0
  exact Nat.cast_ne_zero.mpr (Nat.pos_iff_ne_zero.mp
    (lt_of_lt_of_le (by norm_num) h8a))

/-- C6 witness: the theorem applied to the concrete input. -/
theorem C6_witness :
    8 ≤ (⟨1, "A", (1970, 1), 16⟩ : AHRow).hours ∧
    (((⟨1, "A", (1970, 1), 16⟩ : AHRow).hours : ℚ)) ≠ 0 := by
  have hmem : (⟨1, "A", (1970, 1), 16⟩ : AHRow) ∈ availableRows whC1 toC1 := by
    rw [show availableRows whC1 toC1 = [⟨1, "A", (1970, 1), 16⟩] from rfl]
    exact List.mem_singleton.mpr rfl
  have hpr : ((⟨1, (1970, 1), 1, 1⟩ : WGRow), (⟨1, "A", (1970, 1), 16⟩ : AHRow))
      ∈ joinedPairs whC1 toC1 := by
    have hav : availableRows whC1 toC1 = [⟨1, "A", (1970, 1), 16⟩] := rfl
    have hfil : whC1.filter (fun r => decide (whKey r
        = ((1 : Nat), ((1970 : Nat), (1 : Nat)), (1 : Nat)))) = whC1 := by decide
    have hkeys : (whC1.map whKey).dedup = [(1, (1970, 1), 1)] := by decide
    have hj : joinedPairs whC1 toC1
        = [(⟨1, (1970, 1), 1, 1⟩, ⟨1, "A", (1970, 1), 16⟩)] := by
      unfold joinedPairs workedGroups
      rw [hkeys, hav]
      simp only [List.map_cons, List.map_nil, List.flatMap_cons,
        List.flatMap_nil, List.append_nil, List.filter_cons, List.filter_nil]
      rw [hfil]
      norm_num [whC1]
    rw [hj]
    exact List.mem_singleton.mpr rfl
  exact ⟨(C6_hours_at_least_eight whC1 toC1).1 _ hmem,
    (C6_hours_at_least_eight whC1 toC1).2 _ hpr⟩

/-! ## Run-level claims -/

/-- C7 counterexample: when `read_csv_files` fails, the exception
propagates out of `__main__` without `close_connection` being reached. -/
theorem C7_counterexample :
    (mainRun ⟨false, true, true, true, true⟩).raised = true ∧
    (mainRun ⟨false, true, true, true, true⟩).connection_closed = false :=
  ⟨rfl, rfl⟩

/-- C7 (amended): `__main__` has no `try`/`finally`: `close_connection`
is reached exactly when every stage succeeds, and any stage failure
propagates with the connection left open. -/
theorem C7_amended_close_only_on_success (s : StageOutcome) :
    (mainRun s).connection_closed
      = (s.read_ok && s.load_wh_ok && s.load_to_ok && s.q1_ok && s.q2_ok) ∧
    (mainRun s).raised
      = !(s.read_ok && s.load_wh_ok && s.load_to_ok && s.q1_ok && s.q2_ok) := by
  rcases s with ⟨a, b, c, d, e⟩
  cases a <;> cases b <;> cases c <;> cases d <;> cases e <;> exact ⟨rfl, rfl⟩

/-- C8: a second run of the pipeline on the same input CSV contents —
`load_data` replacing whatever tables the first run left — renders both
output files identically. -/
theorem C8_pipeline_idempotent (db : DB) (wh : List WHRow) (to_ : List TORow) :
    (runPipeline (runPipeline db wh to_).1 wh to_).2
      = (runPipeline db wh to_).2 := rfl

/-- C9 counterexample: with no `output_files` directory in the
filesystem, `query_data` fails with the write error instead of creating
the parent directory. -/
theorem C9_counterexample :
    query_data ⟨some [], some []⟩ ⟨[], []⟩
        (fun d => q1Doc (runQuery1 d))
        ["output_files", "acumulated_actual_costs.csv"]
      = .error "missing parent directory" := rfl

/-- C9 (amended): `query_data` serializes the result with the header row
first, columns in the query's projection order and no index column, and
writes it at the output path leaving the directory set unchanged — but it
does not create parent directories: the write only succeeds when the
parent directory already exists. -/
theorem C9_amended_export (db : DB) (fs : FS) (q : DB → List (List String))
    (path : List String)
    (h : path.dropLast = [] ∨ path.dropLast ∈ fs.dirs) :
    (∃ fs2, query_data db fs q path = .ok (db, fs2) ∧
      fs2.dirs = fs.dirs ∧ (path, q db) ∈ fs2.files) ∧
    (∀ rows : List Q1Row, (q1Doc rows).head? = some q1Header ∧
      (q1Doc rows).tail = rows.map (fun r =>
        [toString r.project_id, toString r.date,
          ratCell r.total_accumulated_cost])) ∧
    (∀ rows : List UtilRow, (q2Doc rows).head? = some q2Header ∧
      (q2Doc rows).tail = rows.map (fun r =>
        [r.employee_name, monthCell r.work_month, toString r.project_id,
          ratCell r.project_utilization_percent])) := by
  have hw : writeCsv fs path (q db)
      = .ok { fs with files :=
          (path, q db) :: fs.files.filter (fun f => decide (f.1 ≠ path)) } := by
    unfold writeCsv
    rw [if_pos h]
  refine ⟨⟨{ fs with files :=
      (path, q db) :: fs.files.filter (fun f => decide (f.1 ≠ path)) },
    ?_, rfl, List.mem_cons_self _ _⟩,
    fun rows => ⟨rfl, rfl⟩, fun rows => ⟨rfl, rfl⟩⟩
  unfold query_data
  rw [hw]

/-- C9 witness: the amended theorem applied to a parent-less output path
on an empty filesystem. -/
theorem C9_witness :
    ((["out.csv"] : List String).dropLast = [] ∨
      (["out.csv"] : List String).dropLast ∈ (⟨[], []⟩ : FS).dirs) ∧
    ((∃ fs2, query_data ⟨some [], some []⟩ ⟨[], []⟩
          (fun d => q1Doc (runQuery1 d)) ["out.csv"]
        = .ok (⟨some [], some []⟩, fs2) ∧
      fs2.dirs = (⟨[], []⟩ : FS).dirs ∧
      (["out.csv"], q1Doc (runQuery1 ⟨some [], some []⟩)) ∈ fs2.files) ∧
    (∀ rows : List Q1Row, (q1Doc rows).head? = some q1Header ∧
      (q1Doc rows).tail = rows.map (fun r =>
        [toString r.project_id, toString r.date,
          ratCell r.total_accumulated_cost])) ∧
    (∀ rows : List UtilRow, (q2Doc rows).head? = some q2Header ∧
      (q2Doc rows).tail = rows.map (fun r =>
        [r.employee_name, monthCell r.work_month, toString r.project_id,
          ratCell r.project_utilization_percent]))) :=
  ⟨Or.inl rfl, C9_amended_export ⟨some [], some []⟩ ⟨[], []⟩
    (fun d => q1Doc (runQuery1 d)) ["out.csv"] (Or.inl rfl)⟩

theorem query_data_db_unchanged (db : DB) (fs : FS)
    (q : DB → List (List String)) (path : List String) (res : DB × FS)
    (h : query_data db fs q path = .ok res) : res.1 = db := by
  unfold query_data at h
  cases hw : writeCsv fs path (q db) with
  | ok fs2 =>
    rw [hw] at h
    cases h
    rfl
  | error e =>
    rw [hw] at h
    cases h

/-- C10: running either fixed query through `query_data` leaves the
database state — both tables — unchanged: the queries only read the
store. -/
theorem C10_queries_preserve_db (db : DB) (fs : FS) (path : List String) :
    (∀ res, query_data db fs (fun d => q1Doc (runQuery1 d)) path = .ok res →
      res.1 = db) ∧
    (∀ res, query_data db fs (fun d => q2Doc (runQuery2 d)) path = .ok res →
      res.1 = db) :=
  ⟨fun res h => query_data_db_unchanged db fs _ path res h,
   fun res h => query_data_db_unchanged db fs _ path res h⟩

/-- C10 witness: the theorem applied to a successful concrete export. -/
theorem C10_witness :
    (((⟨some [], some []⟩ : DB),
      (⟨[], [(["out.csv"], q1Doc (runQuery1 ⟨some [], some []⟩))]⟩ : FS)).1
        : DB) = ⟨some [], some []⟩ :=
  (C10_queries_preserve_db ⟨some [], some []⟩ ⟨[], []⟩ ["out.csv"]).1
    (⟨some [], some []⟩, ⟨[], [(["out.csv"], q1Doc (runQuery1 ⟨some [], some []⟩))]⟩)
    rfl
